import Mathlib

/-!
Shallow embedding of the frame_miner repository's capture/undo/replay core
(src/frame_miner/data_manager.py, video_controller.py, main.py), together
with theorems settling the frozen claims about its specification.

Modelling conventions:
* Python `int` is `Int`; Python `float` values (fps, millisecond timestamps)
  are exact fractions `Frac` (numerator/denominator pairs, denominators kept
  positive by every producer); all values arising here are exactly
  representable, so no rounding behaviour is lost.
* Decoded video frames are abstracted by their index: reading the stream at
  position `i` yields the abstract frame value `i`.  File contents are the
  abstract frame stored, `FileData.img i`.
* The filesystem is a list of `(path, content)` pairs; paths are strings
  relative to the relevant output root.  Directories (`mkdir`) are not
  modelled.  `print` logging is dropped.
* Python `dict` is an association list with in-place update on an existing
  key and append for a fresh key, exactly Python's insertion-order
  semantics.
* The fallible CSV append in `DataManager.save_record` is modelled by a
  `writeOk` parameter: `False` means the `open`/`write` raises, and the
  raised exception propagates as the `.error` branch carrying the state at
  the raise point.
-/

namespace FrameMiner

/-- Exact fraction modelling a Python float value. Producers keep `den`
positive. -/
structure Frac where
  num : Int
  den : Int
deriving DecidableEq

/-- Embed an integer as a fraction. -/
def intToFrac (n : Int) : Frac := ⟨n, 1⟩

/-- Fraction comparison `0 < q` (valid for nonzero denominators of either
sign). -/
def Frac.isPos (q : Frac) : Bool := decide (0 < q.num * q.den)

/-- Division of fractions, mirroring Python `/` on the exact values. -/
def Frac.fdivQ (a b : Frac) : Frac := ⟨a.num * b.den, a.den * b.num⟩

/-- Multiplication by an integer, mirroring Python `* 1000`. -/
def Frac.mulInt (a : Frac) (k : Int) : Frac := ⟨a.num * k, a.den⟩

/-- Left-pad a string with zeros up to `n` characters. -/
def pad0 (s : String) (n : Nat) : String :=
  String.mk (List.replicate (n - s.length) '0') ++ s

/-- Python `f"{t:06d}"`: zero-pad to width 6 (sign included for negatives). -/
def pad6 (t : Int) : String :=
  if t < 0 then "-" ++ pad0 (toString t.natAbs) 5 else pad0 (toString t.natAbs) 6

/-- Python `f"{ms:.2f}"` on an exact fraction with positive denominator:
round `ms * 100` to the nearest integer (ties up; every value produced in
this development is exact, so the tie rule is never exercised) and print
with two decimals.  Negative inputs do not occur. -/
def format2 (q : Frac) : String :=
  let c : Int := Int.fdiv (200 * q.num + q.den) (2 * q.den)
  toString (c / 100) ++ "." ++ pad0 (toString ((c % 100).natAbs)) 2

/-- Python `range(a, b)` as a list of integers. -/
def intRange (a b : Int) : List Int :=
  (List.range (b - a).toNat).map (fun (j : Nat) => a + (j : Int))

/-- First-of `Option.or` written as a plain function (Python-style
"already set wins"). -/
def oelse (a b : Option α) : Option α :=
  match a with
  | some x => some x
  | none => b

/-- Python dict lookup. Keys are unique in every dict these operations
build, so returning the first binding matches Python. -/
def dictGet (m : List (Int × String)) (k : Int) : Option String :=
  (m.find? (fun e => e.1 == k)).map (·.2)

/-- Python dict assignment: update in place when the key exists, else append
(insertion order preserved). -/
def dictInsert (m : List (Int × String)) (k : Int) (v : String) :
    List (Int × String) :=
  match m with
  | [] => [(k, v)]
  | e :: rest => if e.1 == k then (k, v) :: rest else e :: dictInsert rest k v

/-- Python `del d[k]`. -/
def dictDelete (m : List (Int × String)) (k : Int) : List (Int × String) :=
  m.filter (fun e => e.1 != k)

/-- Python `str.split(sep)` for a one-character separator, over the
character list (keeps empty pieces, exactly like Python). -/
def splitOn (c : Char) : List Char → List (List Char)
  | [] => [[]]
  | x :: xs =>
    match splitOn c xs with
    | [] => [[]]
    | h :: t => if x == c then [] :: h :: t else (x :: h) :: t

/-- data_manager.py line 71: `c_label.split('_')[-1] if '_' in c_label else
c_label`. -/
def shortFromLabel (s : String) : String :=
  if s.toList.contains '_' then
    ((splitOn '_' s.toList).map List.asString).getLastD s
  else s

/-- One CSV ledger data row (header omitted): timestamp_str, frame_id,
timestamp_ms, class_label, note. -/
structure Row where
  time_str : String
  frame_id : Int
  timestamp_ms : String
  class_label : String
  note : String
deriving DecidableEq

/-- Contents of a file on disk: a saved image (abstract decoded frame) or a
copied ledger CSV. -/
inductive FileData where
  | img (frame : Int)
  | csv (rows : List Row)
deriving DecidableEq

/-- A filesystem tree: (path, content) pairs. -/
abbrev Disk := List (String × FileData)

/-- Path lookup (a real filesystem has unique paths; producers here never
create duplicates, and the first match is used throughout). -/
def diskLookup (d : Disk) (p : String) : Option FileData :=
  (d.find? (fun e => e.1 == p)).map (·.2)

/-- Overwriting file write: replace in place when the path exists, else
append. -/
def diskWrite (d : Disk) (p : String) (v : FileData) : Disk :=
  if (d.find? (fun e => e.1 == p)).isSome then
    d.map (fun e => if e.1 == p then (p, v) else e)
  else d ++ [(p, v)]

/-- DataManager.save_image_safe: encode and write the image bytes at `p`
(overwrites; the success path is modelled, returning the updated disk). -/
def save_image_safe (d : Disk) (p : String) (img : Int) : Disk :=
  diskWrite d p (FileData.img img)

/-- History stack entry pushed by `save_record` (files written, the exact
CSV row, and the marked frame id). -/
structure HistEntry where
  files : List String
  csv_row : Row
  frame_id : Int
deriving DecidableEq

/-- DataManager state: `rows` are the CSV data rows on disk (header
implicit), `markers` is `global_marked_frames`, `history` is
`history_stack`, `disk` is the image tree under `output_root`. -/
structure DM where
  video_name : String
  rows : List Row
  markers : List (Int × String)
  history : List HistEntry
  disk : Disk
deriving DecidableEq

/-- DataManager._load_existing_markers: replay all CSV rows into a fresh
marker dict (rows are typed here, so the malformed-row skip never fires). -/
def loadMarkers (rows : List Row) : List (Int × String) :=
  rows.foldl (fun m r => dictInsert m r.frame_id (shortFromLabel r.class_label)) []

/-- The image-saving loop of `save_record` (step 3): write each captured
frame under `label_long`, collecting the written paths in order. -/
def saveImagesLoop (disk : Disk) (video_name label_long label_short : String)
    (images : List (Int × String)) : Disk × List String :=
  images.foldl
    (fun acc iv =>
      let fname := video_name ++ "_" ++ label_short ++ "_" ++ iv.2 ++ ".jpg"
      let full_path := label_long ++ "/" ++ fname
      (save_image_safe acc.1 full_path iv.1, acc.2 ++ [full_path]))
    (disk, [])

/-- DataManager.save_record. Mirrors the source order: (1) update the
in-memory marker dict, (2) append the CSV row — `writeOk = false` models the
storage write raising, which propagates as `.error` with the state at the
raise point — (3) in `full` mode save the images, (4) push the history
entry. -/
def DM.save_record (dm : DM) (time_str : String) (frame_id : Int) (ms : Frac)
    (label_long label_short mode : String) (images : List (Int × String))
    (writeOk : Bool) : Except DM DM :=
  let dm1 : DM := { dm with markers := dictInsert dm.markers frame_id label_short }
  let row : Row := ⟨time_str, frame_id, format2 ms, label_long, mode⟩
  if writeOk then
    let dm2 : DM := { dm1 with rows := dm1.rows ++ [row] }
    let saved :=
      if mode == "full" then
        saveImagesLoop dm2.disk dm2.video_name label_long label_short images
      else (dm2.disk, [])
    Except.ok { dm2 with
      disk := saved.1
      history := dm2.history ++ [⟨saved.2, row, frame_id⟩] }
  else Except.error dm1

/-- DataManager.undo_last: pop the newest history entry, delete its files,
drop the last CSV data row (the source guard `len(lines) > 1` counts the
header line), and remove the frame id from the marker dict when present.
The file-IO success path is modelled. -/
def DM.undo_last (dm : DM) : Bool × DM :=
  match dm.history.getLast? with
  | none => (false, dm)
  | some last =>
    let dm1 : DM := { dm with history := dm.history.dropLast }
    let dm2 : DM := { dm1 with
      disk := dm1.disk.filter (fun e => !(last.files.contains e.1)) }
    let dm3 : DM := { dm2 with
      rows := if dm2.rows.length + 1 > 1 then dm2.rows.dropLast else dm2.rows }
    let fid := last.frame_id
    let dm4 : DM :=
      if (dictGet dm3.markers fid).isSome then
        { dm3 with markers := dictDelete dm3.markers fid }
      else dm3
    (true, dm4)

/-- Projection out of the `Except` result of `save_record` (both branches
carry a DataManager state). -/
def unwrapE (e : Except DM DM) : DM :=
  match e with
  | .ok d => d
  | .error d => d

/-- VideoController state. `pos` is cv2's CAP_PROP_POS_FRAMES (index of the
next frame the decoder will return); decoding position `i` yields the
abstract frame `i`. -/
structure VC where
  total_frames : Int
  fps : Frac
  pos : Int
  current_frame_idx : Int
  frame_cache : Option Int
deriving DecidableEq

/-- VideoController.read: `cap.read()` succeeds exactly when the decode
position is inside the stream; on success the position advances,
`current_frame_idx` becomes the new position minus one and the frame is
cached; on failure nothing changes. -/
def VC.read (v : VC) : (Bool × Option Int) × VC :=
  if 0 ≤ v.pos ∧ v.pos < v.total_frames then
    ((true, some v.pos),
     { v with pos := v.pos + 1, current_frame_idx := v.pos, frame_cache := some v.pos })
  else ((false, none), v)

/-- VideoController.seek: clamp the target to `[0, total_frames - 1]`,
reposition the stream, and read once to refresh the cache. -/
def VC.seek (v : VC) (frame_idx : Int) : VC :=
  let target := max 0 (min frame_idx (v.total_frames - 1))
  (VC.read { v with pos := target }).2

/-- VideoController.get_ms: `(current_frame_idx / fps) * 1000` when
`fps > 0`, else 0. -/
def VC.get_ms (v : VC) : Frac :=
  if v.fps.isPos then (Frac.fdivQ (intToFrac v.current_frame_idx) v.fps).mulInt 1000
  else ⟨0, 1⟩

/-- The live-capture target list of main.py lines 186-188: targets
`curr_idx + i * interval` for `i` in `range(-extract_num, 1)`, kept when
inside `[0, total_frames)`. -/
def livePlan (curr_idx extract_num interval total : Int) : List Int :=
  ((intRange (-extract_num) 1).map (fun i => curr_idx + i * interval)).filter
    (fun t => decide (0 ≤ t) && decide (t < total))

/-- The rebuild target list of main.py lines 356-364: targets
`(center_frame_id - 1) + i * new_interval` for `i` in
`range(-new_extract_num, 1)`, kept when inside `[0, total_frames)`. -/
def rebuildPlan (center_frame_id new_extract_num new_interval total : Int) :
    List Int :=
  ((intRange (-new_extract_num) 1).map
      (fun i => (center_frame_id - 1) + i * new_interval)).filter
    (fun t => decide (0 ≤ t) && decide (t < total))

/-- Result of one `_handle_tagging` call: the video and data-manager states
after the call, the trace of `video.seek` targets performed (in call
order), and the captured `images` list passed to `save_record`. -/
structure TagResult where
  video : VC
  dm : DM
  seeks : List Int
  images : List (Int × String)
deriving DecidableEq

/-- Projection out of the `Except` result of `handle_tagging`. -/
def unwrapT (e : Except TagResult TagResult) : TagResult :=
  match e with
  | .ok r => r
  | .error r => r

/-- LabelingApp._handle_tagging, capture core (main.py lines 178-199): for
each `i` in `range(-extract_num, 1)` compute `target = curr_idx +
i * interval`; when in range, seek there and append the cached frame tagged
with `f"{target:06d}"`; then restore the position to the marked frame and
call `save_record` with `curr_idx`, `get_ms()` (taken after the restore),
`"class_" + label`, the short code, the mode and the images.  `seeks`
records every `video.seek` call, for stating the frame-effect claims.
`tagStep` is one iteration of the capture loop. -/
def tagStep (curr_idx interval : Int)
    (acc : VC × List Int × List (Int × String)) (i : Int) :
    VC × List Int × List (Int × String) :=
  let target := curr_idx + i * interval
  if 0 ≤ target ∧ target < acc.1.total_frames then
    let v2 := acc.1.seek target
    let images2 :=
      match v2.frame_cache with
      | some img => acc.2.2 ++ [(img, pad6 target)]
      | none => acc.2.2
    (v2, acc.2.1 ++ [target], images2)
  else acc

def handle_tagging (v : VC) (dm : DM) (label short_code mode : String)
    (extract_num interval : Int) (time_str : String) (writeOk : Bool) :
    Except TagResult TagResult :=
  let curr_idx := v.current_frame_idx
  let backup_pos := curr_idx
  let fold :=
    (intRange (-extract_num) 1).foldl (tagStep curr_idx interval) (v, [], [])
  let v1 := fold.1.seek backup_pos
  let seeks := fold.2.1 ++ [backup_pos]
  let images := fold.2.2
  match dm.save_record time_str curr_idx v1.get_ms ("class_" ++ label)
      short_code mode images writeOk with
  | .ok dm2 => .ok ⟨v1, dm2, seeks, images⟩
  | .error dm2 => .error ⟨v1, dm2, seeks, images⟩

/-- main.py lines 336-348: reverse-lookup the long class name from a short
code by scanning `key_map` (keys are key codes), falling back to
`"class_" + short_code`. -/
def resolveLabel (key_map : List (Nat × String)) (short_code : String) :
    String :=
  match key_map.find?
      (fun kv =>
        (if kv.1 < 256 then (Char.ofNat kv.1).toLower.toString else "?")
          == short_code) with
  | some kv => "class_" ++ kv.2
  | none => "class_" ++ short_code

/-- Insert into a list sorted by frame id (helper for `sortByFid`). -/
def insertByFid (x : Int × String) : List (Int × String) → List (Int × String)
  | [] => [x]
  | y :: ys => if x.1 < y.1 then x :: y :: ys else y :: insertByFid x ys

/-- Python `sorted(markers.items(), key=lambda x: x[0])` (marker keys are
unique, so ties never arise). -/
def sortByFid (m : List (Int × String)) : List (Int × String) :=
  m.foldr insertByFid []

/-- The output image path built by the rebuild loop:
`label_long/{video_name}_{short_code}_{t:06d}.jpg`. -/
def imgPath (label_long video_name short_code : String) (t : Int) : String :=
  let fname := video_name ++ "_" ++ short_code ++ "_" ++ pad6 t ++ ".jpg"
  label_long ++ "/" ++ fname

/-- The per-target body of the rebuild loop (main.py lines 367-380): seek to
`t_frame` (which consumes that frame into the cache), read the next frame,
and if the read succeeded write it at `imgPath` unless that path already
exists. -/
def rebuildFrameStep (video_name short_code label_long : String)
    (acc : VC × Disk) (t_frame : Int) : VC × Disk :=
  let v2 := acc.1.seek t_frame
  let r := v2.read
  match r.1 with
  | (true, some img) =>
    let save_path := imgPath label_long video_name short_code t_frame
    if (diskLookup acc.2 save_path).isSome then (r.2, acc.2)
    else (r.2, save_image_safe acc.2 save_path img)
  | _ => (r.2, acc.2)

/-- The per-marker body of the rebuild loop (main.py lines 326-380): resolve
the long class name, plan the target frames with the new parameters against
the current `total_frames`, and process each target. -/
def rebuildMarkerStep (video_name : String) (key_map : List (Nat × String))
    (new_extract_num new_interval : Int) (acc : VC × Disk)
    (mk : Int × String) : VC × Disk :=
  let label_long_name := resolveLabel key_map mk.2
  let target_frames :=
    rebuildPlan mk.1 new_extract_num new_interval acc.1.total_frames
  target_frames.foldl (rebuildFrameStep video_name mk.2 label_long_name) acc

/-- LabelingApp.rebuild_dataset: no-op when no markers are loaded; otherwise
optionally copy the ledger CSV into the new root (overwriting), then process
the markers sorted by frame id.  The returned disk holds the files under the
new output root. -/
def rebuild_dataset (v : VC) (dm : DM) (key_map : List (Nat × String))
    (new_extract_num new_interval : Int) (copy_csv : Bool) (disk : Disk) :
    VC × Disk :=
  if dm.markers.isEmpty then (v, disk)
  else
    let disk1 :=
      if copy_csv then
        diskWrite disk (dm.video_name ++ "_labels.csv") (FileData.csv dm.rows)
      else disk
    (sortByFid dm.markers).foldl
      (rebuildMarkerStep dm.video_name key_map new_extract_num new_interval)
      (v, disk1)

/-- Argument bundle for one `save_record` call (used to state properties of
sequences of appends). -/
structure SaveArgs where
  time_str : String
  frame_id : Int
  ms : Frac
  label_long : String
  label_short : String
  mode : String
  images : List (Int × String)

/-- Run a sequence of successful `save_record` calls left to right. -/
def applySaves (dm : DM) (l : List SaveArgs) : Except DM DM :=
  l.foldlM
    (fun d a =>
      d.save_record a.time_str a.frame_id a.ms a.label_long a.label_short
        a.mode a.images true)
    dm

/-- The (path, planned index) write descriptors one marker contributes in
`rebuild_dataset` (specification helper for the rebuild characterisation). -/
def markerWrites (total : Int) (video_name : String)
    (key_map : List (Nat × String)) (new_extract_num new_interval : Int)
    (mk : Int × String) : List (String × Int) :=
  (rebuildPlan mk.1 new_extract_num new_interval total).map
    (fun t => (imgPath (resolveLabel key_map mk.2) video_name mk.2 t, t))

/-- The content the rebuild loop deposits at path `q` when `q` was absent:
the first descriptor for `q` whose read succeeds (reads succeed exactly when
the frame after the planned index is still inside the video). -/
def writeAt (total : Int) (jobs : List (String × Int)) (q : String) :
    Option FileData :=
  jobs.findSome?
    (fun j =>
      if j.1 == q then
        (if j.2 + 1 < total then some (FileData.img (j.2 + 1)) else none)
      else none)

/-- Fresh DataManager state for a project with no prior ledger. -/
def freshDM : DM := ⟨"vid", [], [], [], []⟩

/-- A 1000-frame, 25 fps video positioned at frame 500 (frame 500 cached,
decoder about to return frame 501). -/
def vid500 : VC := ⟨1000, ⟨25, 1⟩, 501, 500, some 500⟩

/-- Two successful mark-only appends with default-style labels (the class
label suffix is the short code), used to witness the ledger round-trip. -/
def savesW : List SaveArgs :=
  [⟨"T", 1, ⟨0, 1⟩, "class_z", "z", "mark_only", []⟩,
   ⟨"U", 2, ⟨0, 1⟩, "class_x", "x", "mark_only", []⟩]

/-- The DataManager state reached by running `savesW` from `freshDM`. -/
def dmW : DM :=
  ⟨"vid",
   [⟨"T", 1, "0.00", "class_z", "mark_only"⟩,
    ⟨"U", 2, "0.00", "class_x", "mark_only"⟩],
   [(1, "z"), (2, "x")],
   [⟨[], ⟨"T", 1, "0.00", "class_z", "mark_only"⟩, 1⟩,
    ⟨[], ⟨"U", 2, "0.00", "class_x", "mark_only"⟩, 2⟩],
   []⟩

/-! ### General helper lemmas -/

theorem oelse_assoc (a b c : Option α) :
    oelse (oelse a b) c = oelse a (oelse b c) := by
  cases a <;> rfl

theorem oelse_none_right (a : Option α) : oelse a none = a := by
  cases a <;> rfl

theorem oelse_self_absorb (a b : Option α) : oelse (oelse a b) b = oelse a b := by
  cases a
  · cases b <;> rfl
  · rfl

theorem findSome?_append_oelse (f : α → Option β) (l1 l2 : List α) :
    (l1 ++ l2).findSome? f = oelse (l1.findSome? f) (l2.findSome? f) := by
  induction l1 with
  | nil => rfl
  | cons x xs ih =>
    simp only [List.cons_append, List.findSome?_cons]
    cases f x
    · simpa [oelse] using ih
    · rfl

theorem findSome?_map_comp (g : α → β) (f : β → Option γ) (l : List α) :
    (l.map g).findSome? f = l.findSome? (fun a => f (g a)) := by
  induction l with
  | nil => rfl
  | cons x xs ih =>
    simp only [List.map_cons, List.findSome?_cons]
    cases f (g x)
    · simpa using ih
    · rfl

theorem find?_map_of_key (f : α → α) (p : α → Bool) (hp : ∀ a, p (f a) = p a)
    (l : List α) : (l.map f).find? p = (l.find? p).map f := by
  induction l with
  | nil => rfl
  | cons a l ih =>
    by_cases h : p a = true
    · simp [List.find?_cons, hp, h]
    · simp only [Bool.not_eq_true] at h
      simp [List.find?_cons, hp, h, ih]

theorem mem_intRange (a b x : Int) : x ∈ intRange a b ↔ a ≤ x ∧ x < b := by
  unfold intRange
  constructor
  · intro hx
    rcases List.mem_map.mp hx with ⟨j, hj, rfl⟩
    rw [List.mem_range] at hj
    omega
  · rintro ⟨h1, h2⟩
    refine List.mem_map.mpr ⟨(x - a).toNat, ?_, ?_⟩
    · rw [List.mem_range]
      omega
    · omega

/-! ### Dictionary lemmas -/

theorem dictGet_insert_self (m : List (Int × String)) (k : Int) (v : String) :
    dictGet (dictInsert m k v) k = some v := by
  induction m with
  | nil => simp [dictGet, dictInsert, List.find?_cons]
  | cons e m ih =>
    by_cases h : e.1 = k
    · simp [dictGet, dictInsert, h, List.find?_cons]
    · simpa [dictGet, dictInsert, h, List.find?_cons] using ih

theorem dictGet_delete_self (m : List (Int × String)) (k : Int) :
    dictGet (dictDelete m k) k = none := by
  induction m with
  | nil => rfl
  | cons e m ih =>
    by_cases h : e.1 = k
    · simp only [dictDelete, List.filter_cons, h]
      simp only [dictDelete] at ih
      simpa using ih
    · simp only [dictDelete, List.filter_cons]
      have hb : (e.1 != k) = true := by simp [h]
      rw [hb]
      simp only [if_true, dictGet, List.find?_cons]
      have hb2 : (e.1 == k) = false := by simp [h]
      rw [hb2]
      simp only [dictGet, dictDelete] at ih ⊢
      exact ih

/-! ### Disk lemmas -/

theorem diskLookup_append_single (d : Disk) (p : String) (v : FileData)
    (q : String) :
    diskLookup (d ++ [(p, v)]) q
      = oelse (diskLookup d q) (if p == q then some v else none) := by
  unfold diskLookup
  rw [List.find?_append]
  cases hd : d.find? (fun e => e.1 == q)
  · by_cases h : p = q <;> simp [oelse, List.find?_cons, h, Option.or]
  · simp [oelse, Option.or]

theorem diskLookup_isSome_iff_find? (d : Disk) (p : String) :
    (diskLookup d p).isSome = (d.find? (fun e => e.1 == p)).isSome := by
  unfold diskLookup
  cases d.find? (fun e => e.1 == p) <;> rfl

theorem diskLookup_diskWrite (d : Disk) (p : String) (v : FileData)
    (q : String) :
    diskLookup (diskWrite d p v) q = if p == q then some v else diskLookup d q := by
  unfold diskWrite
  by_cases hf : (d.find? (fun e => e.1 == p)).isSome
  · rw [if_pos hf]
    unfold diskLookup
    rw [find?_map_of_key (fun e => if e.1 == p then (p, v) else e)
        (fun e => e.1 == q)]
    · rcases hq : d.find? (fun e => e.1 == q) with _ | e
      · by_cases h : p = q
        · subst h
          rw [hq] at hf
          simp at hf
        · simp [hq, h]
      · have hkey := List.find?_some hq
        simp only [beq_iff_eq] at hkey
        by_cases h : p = q
        · subst h
          simp [hq, hkey]
        · have hep : e.1 ≠ p := by
            rw [hkey]
            exact fun hc => h hc.symm
          simp [hq, h, hep]
    · intro e
      by_cases he : e.1 = p <;> simp [he]
  · rw [if_neg hf]
    rw [diskLookup_append_single]
    by_cases h : p = q
    · subst h
      have hnone : diskLookup d p = none := by
        unfold diskLookup
        rcases hd : d.find? (fun e => e.1 == p) with _ | e
        · rw [hd]
          rfl
        · rw [hd] at hf
          simp at hf
      simp [hnone, oelse]
    · simp [h, oelse_none_right]

/-! ### VideoController lemmas -/

theorem VC.seek_spec (v : VC) (t : Int) (h0 : 0 ≤ t) (h1 : t < v.total_frames) :
    v.seek t = ⟨v.total_frames, v.fps, t + 1, t, some t⟩ := by
  unfold VC.seek VC.read
  dsimp only
  have hc : max 0 (min t (v.total_frames - 1)) = t := by omega
  rw [hc, if_pos ⟨h0, h1⟩]

theorem VC.seek_total (v : VC) (t : Int) :
    (v.seek t).total_frames = v.total_frames := by
  simp only [VC.seek, VC.read]
  split <;> rfl

theorem VC.read_total (v : VC) : v.read.2.total_frames = v.total_frames := by
  simp only [VC.read]
  split <;> rfl

/-! ### Planner lemmas -/

theorem mem_livePlan_bounds (c k I T x : Int) (hx : x ∈ livePlan c k I T) :
    0 ≤ x ∧ x < T := by
  unfold livePlan at hx
  rcases List.mem_filter.mp hx with ⟨-, hp⟩
  rw [Bool.and_eq_true, decide_eq_true_eq, decide_eq_true_eq] at hp
  exact hp

theorem mem_rebuildPlan_bounds (c k I T x : Int)
    (hx : x ∈ rebuildPlan c k I T) : 0 ≤ x ∧ x < T := by
  unfold rebuildPlan at hx
  rcases List.mem_filter.mp hx with ⟨-, hp⟩
  rw [Bool.and_eq_true, decide_eq_true_eq, decide_eq_true_eq] at hp
  exact hp

theorem intRange_pairwise_lt (a b : Int) :
    (intRange a b).Pairwise (· < ·) := by
  unfold intRange
  rw [List.pairwise_map]
  exact (List.pairwise_lt_range _).imp (fun h => by omega)

theorem livePlan_pairwise (c k I T : Int) (hI : 1 ≤ I) :
    (livePlan c k I T).Pairwise (· ≤ ·) := by
  unfold livePlan
  apply List.Pairwise.filter
  rw [List.pairwise_map]
  apply (intRange_pairwise_lt (-k) 1).imp
  intro a b hab
  have : a * I < b * I := by
    apply mul_lt_mul_of_pos_right hab
    omega
  omega

theorem rebuildPlan_pairwise (c k I T : Int) (hI : 1 ≤ I) :
    (rebuildPlan c k I T).Pairwise (· ≤ ·) := by
  unfold rebuildPlan
  apply List.Pairwise.filter
  rw [List.pairwise_map]
  apply (intRange_pairwise_lt (-k) 1).imp
  intro a b hab
  have : a * I < b * I := by
    apply mul_lt_mul_of_pos_right hab
    omega
  omega

theorem plan_filter_trivial (c k I T : Int) (hI : 0 ≤ I)
    (hlo : 0 ≤ c - k * I) (hhi : c < T) :
    livePlan c k I T = (intRange (-k) 1).map (fun i => c + i * I) := by
  unfold livePlan
  apply List.filter_eq_self.mpr
  intro x hx
  rcases List.mem_map.mp hx with ⟨i, hi, rfl⟩
  rcases (mem_intRange _ _ _).mp hi with ⟨h1, h2⟩
  have hub : i * I ≤ 0 := mul_nonpos_iff.mpr (Or.inr ⟨by omega, hI⟩)
  have hlb : -(k * I) ≤ i * I := by
    have := mul_le_mul_of_nonneg_right h1 hI
    simpa [neg_mul] using this
  rw [Bool.and_eq_true, decide_eq_true_eq, decide_eq_true_eq]
  omega

/-! ### Capture-loop characterisation -/

theorem tagFold_spec (c I : Int) (l : List Int) :
    ∀ (v : VC) (s : List Int) (im : List (Int × String)),
    (l.foldl (tagStep c I) (v, s, im)).1.total_frames = v.total_frames ∧
    (l.foldl (tagStep c I) (v, s, im)).2.1
      = s ++ (l.map (fun i => c + i * I)).filter
          (fun t => decide (0 ≤ t) && decide (t < v.total_frames)) ∧
    (l.foldl (tagStep c I) (v, s, im)).2.2
      = im ++ ((l.map (fun i => c + i * I)).filter
          (fun t => decide (0 ≤ t) && decide (t < v.total_frames))).map
            (fun t => (t, pad6 t)) := by
  induction l with
  | nil =>
    intro v s im
    simp
  | cons i l ih =>
    intro v s im
    rw [List.foldl_cons]
    by_cases h : 0 ≤ c + i * I ∧ c + i * I < v.total_frames
    · have hstep : tagStep c I (v, s, im) i
          = (v.seek (c + i * I), s ++ [c + i * I],
             im ++ [(c + i * I, pad6 (c + i * I))]) := by
        unfold tagStep
        rw [if_pos h, VC.seek_spec v _ h.1 h.2]
      rw [hstep]
      obtain ⟨ihT, ihS, ihI⟩ :=
        ih (v.seek (c + i * I)) (s ++ [c + i * I])
          (im ++ [(c + i * I, pad6 (c + i * I))])
      have hg : (decide (0 ≤ c + i * I) && decide (c + i * I < v.total_frames))
          = true := by
        simp [h.1, h.2]
      refine ⟨?_, ?_, ?_⟩
      · rw [ihT, VC.seek_total]
      · rw [ihS, VC.seek_total, List.map_cons, List.filter_cons, hg]
        simp
      · rw [ihI, VC.seek_total, List.map_cons, List.filter_cons, hg]
        simp
    · have hstep : tagStep c I (v, s, im) i = (v, s, im) := by
        unfold tagStep
        rw [if_neg h]
      rw [hstep]
      obtain ⟨ihT, ihS, ihI⟩ := ih v s im
      have hg : (decide (0 ≤ c + i * I) && decide (c + i * I < v.total_frames))
          = false := by
        rw [Bool.eq_false_iff]
        intro hc
        rw [Bool.and_eq_true, decide_eq_true_eq, decide_eq_true_eq] at hc
        exact h hc
      refine ⟨ihT, ?_, ?_⟩
      · rw [ihS, List.map_cons, List.filter_cons, hg]
        simp
      · rw [ihI, List.map_cons, List.filter_cons, hg]
        simp

/-! ### Rebuild characterisation -/

theorem frameStep_total (vn s ll : String) (acc : VC × Disk) (t : Int) :
    (rebuildFrameStep vn s ll acc t).1.total_frames = acc.1.total_frames := by
  unfold rebuildFrameStep
  rcases hr : (acc.1.seek t).read.1 with ⟨b, oi⟩
  have h2 : (acc.1.seek t).read.2.total_frames = acc.1.total_frames := by
    rw [VC.read_total, VC.seek_total]
  rcases oi with _ | i
  · cases b
    · simp only [hr, h2]
    · simp only [hr, h2]
  · cases b
    · simp only [hr, h2]
    · simp only [hr]
      split <;> simp [h2]

theorem frameStep_lookup (vn s ll : String) (v : VC) (d : Disk) (t : Int)
    (h0 : 0 ≤ t) (h1 : t < v.total_frames) (q : String) :
    diskLookup (rebuildFrameStep vn s ll (v, d) t).2 q
      = oelse (diskLookup d q)
          (if imgPath ll vn s t == q then
            (if t + 1 < v.total_frames then some (FileData.img (t + 1)) else none)
           else none) := by
  unfold rebuildFrameStep
  rw [VC.seek_spec v t h0 h1]
  dsimp only
  by_cases hb : t + 1 < v.total_frames
  · have hread :
        (VC.read ⟨v.total_frames, v.fps, t + 1, t, some t⟩)
          = ((true, some (t + 1)),
             ⟨v.total_frames, v.fps, t + 1 + 1, t + 1, some (t + 1)⟩) := by
      unfold VC.read
      dsimp only
      rw [if_pos ⟨by omega, hb⟩]
    rw [hread]
    dsimp only
    by_cases hex : (diskLookup d (imgPath ll vn s t)).isSome
    · rw [if_pos hex]
      dsimp only
      rcases hl : diskLookup d (imgPath ll vn s t) with _ | x
      · rw [hl] at hex
        simp at hex
      · by_cases hpq : imgPath ll vn s t = q
        · subst hpq
          rw [hl]
          simp [oelse]
        · have : (imgPath ll vn s t == q) = false := by
            simp [hpq]
          rw [this]
          simp [oelse_none_right]
    · rw [if_neg hex]
      dsimp only
      have hnone : diskLookup d (imgPath ll vn s t) = none := by
        rcases hl : diskLookup d (imgPath ll vn s t) with _ | x
        · rfl
        · rw [hl] at hex
          simp at hex
      unfold save_image_safe diskWrite
      have hfind : (d.find? (fun e => e.1 == imgPath ll vn s t)).isSome = false := by
        rw [← diskLookup_isSome_iff_find?]
        rw [hnone]
        rfl
      rw [hfind]
      simp only [Bool.false_eq_true, if_false, if_pos hb]
      rw [diskLookup_append_single]
  · have hread :
        (VC.read ⟨v.total_frames, v.fps, t + 1, t, some t⟩)
          = ((false, none), ⟨v.total_frames, v.fps, t + 1, t, some t⟩) := by
      unfold VC.read
      dsimp only
      rw [if_neg (by omega)]
    rw [hread]
    dsimp only
    rw [if_neg hb]
    have : (if imgPath ll vn s t == q then (none : Option FileData) else none)
        = none := by
      split <;> rfl
    rw [this, oelse_none_right]

theorem frameFold_spec (vn s ll : String) (ts : List Int) :
    ∀ (v : VC) (d : Disk),
    (∀ t ∈ ts, 0 ≤ t ∧ t < v.total_frames) →
    ((ts.foldl (rebuildFrameStep vn s ll) (v, d)).1.total_frames
        = v.total_frames) ∧
    ∀ q, diskLookup (ts.foldl (rebuildFrameStep vn s ll) (v, d)).2 q
      = oelse (diskLookup d q)
          (ts.findSome? (fun t =>
            if imgPath ll vn s t == q then
              (if t + 1 < v.total_frames then some (FileData.img (t + 1))
               else none)
            else none)) := by
  induction ts with
  | nil =>
    intro v d _
    refine ⟨rfl, fun q => ?_⟩
    simp [oelse_none_right]
  | cons t ts ih =>
    intro v d hbound
    rw [List.foldl_cons]
    have ht := hbound t (List.mem_cons_self t ts)
    have hstep : rebuildFrameStep vn s ll (v, d) t
        = ((rebuildFrameStep vn s ll (v, d) t).1,
           (rebuildFrameStep vn s ll (v, d) t).2) := rfl
    have hT : (rebuildFrameStep vn s ll (v, d) t).1.total_frames
        = v.total_frames := frameStep_total vn s ll (v, d) t
    obtain ⟨ihT, ihL⟩ :=
      ih (rebuildFrameStep vn s ll (v, d) t).1
        (rebuildFrameStep vn s ll (v, d) t).2
        (by
          intro x hx
          rw [hT]
          exact hbound x (List.mem_cons_of_mem t hx))
    rw [← hstep] at ihT ihL
    refine ⟨by rw [ihT, hT], fun q => ?_⟩
    rw [ihL q, frameStep_lookup vn s ll v d t ht.1 ht.2 q,
      List.findSome?_cons, oelse_assoc]
    rw [hT]
    rcases hfa :
        (if imgPath ll vn s t == q then
          (if t + 1 < v.total_frames then some (FileData.img (t + 1)) else none)
         else none) with _ | x
    · rfl
    · rfl

theorem markerStep_spec (vn : String) (km : List (Nat × String)) (kN I : Int)
    (v : VC) (d : Disk) (mk : Int × String) :
    ((rebuildMarkerStep vn km kN I (v, d) mk).1.total_frames = v.total_frames) ∧
    ∀ q, diskLookup (rebuildMarkerStep vn km kN I (v, d) mk).2 q
      = oelse (diskLookup d q)
          (writeAt v.total_frames (markerWrites v.total_frames vn km kN I mk) q) := by
  unfold rebuildMarkerStep
  dsimp only
  obtain ⟨hT, hL⟩ :=
    frameFold_spec vn mk.2 (resolveLabel km mk.2)
      (rebuildPlan mk.1 kN I v.total_frames) v d
      (fun t ht => mem_rebuildPlan_bounds _ _ _ _ _ ht)
  refine ⟨hT, fun q => ?_⟩
  rw [hL q]
  unfold writeAt markerWrites
  rw [findSome?_map_comp]

theorem markerFold_spec (vn : String) (km : List (Nat × String)) (kN I : Int)
    (mks : List (Int × String)) :
    ∀ (v : VC) (d : Disk),
    ((mks.foldl (rebuildMarkerStep vn km kN I) (v, d)).1.total_frames
        = v.total_frames) ∧
    ∀ q, diskLookup (mks.foldl (rebuildMarkerStep vn km kN I) (v, d)).2 q
      = oelse (diskLookup d q)
          (writeAt v.total_frames
            (mks.flatMap (markerWrites v.total_frames vn km kN I)) q) := by
  induction mks with
  | nil =>
    intro v d
    refine ⟨rfl, fun q => ?_⟩
    simp [writeAt, oelse_none_right]
  | cons mk mks ih =>
    intro v d
    rw [List.foldl_cons]
    obtain ⟨hT1, hL1⟩ := markerStep_spec vn km kN I v d mk
    have hstep : rebuildMarkerStep vn km kN I (v, d) mk
        = ((rebuildMarkerStep vn km kN I (v, d) mk).1,
           (rebuildMarkerStep vn km kN I (v, d) mk).2) := rfl
    obtain ⟨ihT, ihL⟩ :=
      ih (rebuildMarkerStep vn km kN I (v, d) mk).1
        (rebuildMarkerStep vn km kN I (v, d) mk).2
    rw [← hstep] at ihT ihL
    refine ⟨by rw [ihT, hT1], fun q => ?_⟩
    rw [ihL q, hT1, hL1 q, List.flatMap_cons]
    have happ : writeAt v.total_frames
        (markerWrites v.total_frames vn km kN I mk
          ++ mks.flatMap (markerWrites v.total_frames vn km kN I)) q
      = oelse (writeAt v.total_frames (markerWrites v.total_frames vn km kN I mk) q)
          (writeAt v.total_frames
            (mks.flatMap (markerWrites v.total_frames vn km kN I)) q) := by
      unfold writeAt
      rw [findSome?_append_oelse]
    rw [happ, oelse_assoc]

theorem rebuild_dataset_total (v : VC) (dm : DM) (km : List (Nat × String))
    (kN I : Int) (cc : Bool) (d : Disk) :
    (rebuild_dataset v dm km kN I cc d).1.total_frames = v.total_frames := by
  unfold rebuild_dataset
  rcases he : dm.markers.isEmpty with _ | _
  · simp only [Bool.false_eq_true, if_false]
    exact (markerFold_spec dm.video_name km kN I (sortByFid dm.markers) v _).1
  · rfl

theorem rebuild_dataset_lookup (v : VC) (dm : DM) (km : List (Nat × String))
    (kN I : Int) (cc : Bool) (d : Disk)
    (hne : dm.markers.isEmpty = false) (q : String) :
    diskLookup (rebuild_dataset v dm km kN I cc d).2 q
      = oelse
          (diskLookup
            (if cc then
              diskWrite d (dm.video_name ++ "_labels.csv") (FileData.csv dm.rows)
             else d) q)
          (writeAt v.total_frames
            ((sortByFid dm.markers).flatMap
              (markerWrites v.total_frames dm.video_name km kN I)) q) := by
  unfold rebuild_dataset
  rw [hne]
  simp only [Bool.false_eq_true, if_false]
  exact (markerFold_spec dm.video_name km kN I (sortByFid dm.markers) v _).2 q

/-! ### DataManager lemmas -/

theorem save_record_ok_eq (dm : DM) (t : String) (fid : Int) (ms : Frac)
    (ll ls mode : String) (imgs : List (Int × String)) :
    dm.save_record t fid ms ll ls mode imgs true
      = .ok { dm with
          markers := dictInsert dm.markers fid ls
          rows := dm.rows ++ [⟨t, fid, format2 ms, ll, mode⟩]
          disk := (if mode == "full" then
              saveImagesLoop dm.disk dm.video_name ll ls imgs
            else (dm.disk, [])).1
          history := dm.history ++
            [⟨(if mode == "full" then
                saveImagesLoop dm.disk dm.video_name ll ls imgs
              else (dm.disk, [])).2,
              ⟨t, fid, format2 ms, ll, mode⟩, fid⟩] } := rfl

theorem save_record_markonly_disk (dm : DM) (t : String) (fid : Int) (ms : Frac)
    (ll ls : String) (imgs : List (Int × String)) (wk : Bool) :
    (unwrapE (dm.save_record t fid ms ll ls "mark_only" imgs wk)).disk
      = dm.disk := by
  cases wk
  · rfl
  · rfl

theorem loadMarkers_concat (R : List Row) (r : Row) :
    loadMarkers (R ++ [r])
      = dictInsert (loadMarkers R) r.frame_id (shortFromLabel r.class_label) := by
  unfold loadMarkers
  rw [List.foldl_append]
  rfl

theorem unwrapT_handle_tagging (v : VC) (dm : DM)
    (label short_code mode : String) (extract_num interval : Int)
    (time_str : String) (writeOk : Bool) :
    unwrapT (handle_tagging v dm label short_code mode extract_num interval
        time_str writeOk)
      = ⟨((intRange (-extract_num) 1).foldl
            (tagStep v.current_frame_idx interval) (v, [], [])).1.seek
            v.current_frame_idx,
         unwrapE (dm.save_record time_str v.current_frame_idx
           (((intRange (-extract_num) 1).foldl
              (tagStep v.current_frame_idx interval) (v, [], [])).1.seek
              v.current_frame_idx).get_ms
           ("class_" ++ label) short_code mode
           ((intRange (-extract_num) 1).foldl
              (tagStep v.current_frame_idx interval) (v, [], [])).2.2 writeOk),
         ((intRange (-extract_num) 1).foldl
            (tagStep v.current_frame_idx interval) (v, [], [])).2.1
           ++ [v.current_frame_idx],
         ((intRange (-extract_num) 1).foldl
            (tagStep v.current_frame_idx interval) (v, [], [])).2.2⟩ := by
  unfold handle_tagging
  dsimp only
  split
  · next dm2 heq =>
    rw [heq]
    rfl
  · next dm2 heq =>
    rw [heq]
    rfl

/-! ### Claim theorems -/

/-- C1 counterexample: with an empty prior index, a failing CSV append in
`save_record` raises, yet the in-memory marker index is NOT identical to its
pre-call state — the claimed rollback does not happen. -/
theorem save_record_fail_rollback_cex :
    (freshDM.save_record "T" 5 ⟨0, 1⟩ "class_car" "z" "full" [] false).isOk
        = false ∧
    (unwrapE (freshDM.save_record "T" 5 ⟨0, 1⟩ "class_car" "z" "full" []
        false)).markers ≠ freshDM.markers := by
  decide

/-- C1 amended: when the physical CSV append fails, `save_record` raises
with the in-memory marker index already updated (`frame_id ↦ label_short`)
and everything else unchanged; there is no rollback of the index. -/
theorem save_record_fail_keeps_memory_update (dm : DM) (time_str : String)
    (frame_id : Int) (ms : Frac) (label_long label_short mode : String)
    (images : List (Int × String)) :
    dm.save_record time_str frame_id ms label_long label_short mode images false
      = .error { dm with markers := dictInsert dm.markers frame_id label_short } :=
  rfl

/-- C2 counterexample: one appended entry with a custom class name
(`class_car` stored on disk, short code `z` kept in memory): reloading the
ledger maps the frame to `"car"`, not to the short code `"z"` that
`save_record` stored, so the reloaded index differs from the in-memory
one. -/
theorem ledger_roundtrip_cex :
    (unwrapE (freshDM.save_record "T" 500 ⟨0, 1⟩ "class_car" "z" "mark_only"
        [] true)).markers = [(500, "z")] ∧
    loadMarkers (unwrapE (freshDM.save_record "T" 500 ⟨0, 1⟩ "class_car" "z"
        "mark_only" [] true)).rows = [(500, "car")] ∧
    loadMarkers (unwrapE (freshDM.save_record "T" 500 ⟨0, 1⟩ "class_car" "z"
        "mark_only" [] true)).rows
      ≠ (unwrapE (freshDM.save_record "T" 500 ⟨0, 1⟩ "class_car" "z"
        "mark_only" [] true)).markers := by
  decide

/-- C2 amended: the ledger round-trip holds exactly when every appended
entry's class label carries its short code as the final underscore-separated
piece (as with the default class names): starting from any state whose index
equals the replay of its rows, after N successful appends satisfying that
label condition the replayed index equals the in-memory one. -/
theorem ledger_roundtrip_suffix (dm : DM) (l : List SaveArgs)
    (hinit : dm.markers = loadMarkers dm.rows)
    (hshort : ∀ a ∈ l, shortFromLabel a.label_long = a.label_short)
    (hdist : l.Pairwise (fun a b => a.frame_id ≠ b.frame_id))
    (dm' : DM) (hrun : applySaves dm l = .ok dm') :
    dm'.markers = loadMarkers dm'.rows := by
  induction l generalizing dm with
  | nil =>
    unfold applySaves at hrun
    rw [List.foldlM_nil] at hrun
    injection hrun with h
    rw [← h]
    exact hinit
  | cons a l ih =>
    unfold applySaves at hrun
    rw [List.foldlM_cons, save_record_ok_eq] at hrun
    have hbind :
        ∀ (x : DM) (f : DM → Except DM DM), (Except.ok x >>= f) = f x :=
      fun x f => rfl
    rw [hbind] at hrun
    refine ih _ ?_ (fun x hx => hshort x (List.mem_cons_of_mem a hx))
      hdist.of_cons hrun
    show dictInsert dm.markers a.frame_id a.label_short
        = loadMarkers (dm.rows ++ [⟨a.time_str, a.frame_id, format2 a.ms,
            a.label_long, a.mode⟩])
    rw [loadMarkers_concat, ← hinit]
    have hs := hshort a (List.mem_cons_self a l)
    rw [show (⟨a.time_str, a.frame_id, format2 a.ms, a.label_long,
        a.mode⟩ : Row).class_label = a.label_long from rfl]
    rw [hs]

/-- C2 witness: two appends with default-style labels from a fresh state
round-trip. -/
theorem ledger_roundtrip_suffix_witness : dmW.markers = loadMarkers dmW.rows :=
  ledger_roundtrip_suffix freshDM savesW rfl (by decide) (by decide) dmW rfl

/-- C3: scenario — 1000-frame video at 25 fps, `extract_num = 2`,
`interval = 10`, frame 500 marked with class `car` (key `z`) in full mode:
exactly the frames `[480, 490, 500]` are captured and written under
`class_car/`, position is restored to frame 500, and exactly one ledger row
`(frame_id = 500, timestamp_ms = "20000.00", class_label = "class_car")` is
appended. -/
theorem scenario_mark_frame500 :
    unwrapT (handle_tagging vid500 freshDM "car" "z" "full" 2 10 "T" true) =
      ⟨⟨1000, ⟨25, 1⟩, 501, 500, some 500⟩,
       ⟨"vid",
        [⟨"T", 500, "20000.00", "class_car", "full"⟩],
        [(500, "z")],
        [⟨["class_car/vid_z_000480.jpg", "class_car/vid_z_000490.jpg",
           "class_car/vid_z_000500.jpg"],
          ⟨"T", 500, "20000.00", "class_car", "full"⟩, 500⟩],
        [("class_car/vid_z_000480.jpg", .img 480),
         ("class_car/vid_z_000490.jpg", .img 490),
         ("class_car/vid_z_000500.jpg", .img 500)]⟩,
       [480, 490, 500, 500],
       [(480, "000480"), (490, "000490"), (500, "000500")]⟩ := by
  decide

/-- C4 counterexample: tagging frame 500 in `mark_only` mode still performs
seeks (to 480, 490, 500 and the restore to 500) and still copies frame
buffers into `images` — contradicting the claim that MarkOnly performs no
seeking and copies no buffers. -/
theorem markonly_still_seeks_cex :
    (unwrapT (handle_tagging vid500 freshDM "car" "z" "mark_only" 2 10 "T"
        true)).seeks = [480, 490, 500, 500] ∧
    (unwrapT (handle_tagging vid500 freshDM "car" "z" "mark_only" 2 10 "T"
        true)).images ≠ [] := by
  decide

/-- C4 amended: the capture loop runs identically in every mode — the seek
trace is always the planned targets followed by the restore to the marked
frame, frame buffers are always copied for every in-range target, and the
position ends back at the marked frame; the mode only controls whether
`save_record` writes image files (`mark_only` leaves the disk unchanged). -/
theorem tagging_seeks_regardless_of_mode (v : VC) (dm : DM)
    (label short_code mode : String) (extract_num interval : Int)
    (time_str : String) (writeOk : Bool)
    (h0 : 0 ≤ v.current_frame_idx) (h1 : v.current_frame_idx < v.total_frames) :
    (unwrapT (handle_tagging v dm label short_code mode extract_num interval
        time_str writeOk)).seeks
      = livePlan v.current_frame_idx extract_num interval v.total_frames
          ++ [v.current_frame_idx] ∧
    (unwrapT (handle_tagging v dm label short_code mode extract_num interval
        time_str writeOk)).images
      = (livePlan v.current_frame_idx extract_num interval
          v.total_frames).map (fun t => (t, pad6 t)) ∧
    (unwrapT (handle_tagging v dm label short_code mode extract_num interval
        time_str writeOk)).video.current_frame_idx = v.current_frame_idx ∧
    (mode = "mark_only" →
      (unwrapT (handle_tagging v dm label short_code mode extract_num interval
          time_str writeOk)).dm.disk = dm.disk) := by
  obtain ⟨hT, hS, hI2⟩ :=
    tagFold_spec v.current_frame_idx interval (intRange (-extract_num) 1) v [] []
  rw [unwrapT_handle_tagging]
  refine ⟨?_, ?_, ?_, ?_⟩
  · rw [hS]
    rfl
  · rw [hI2]
    rfl
  · have hseek :=
      VC.seek_spec
        ((intRange (-extract_num) 1).foldl
          (tagStep v.current_frame_idx interval) (v, [], [])).1
        v.current_frame_idx h0 (by rw [hT]; exact h1)
    rw [hseek]
  · intro hm
    subst hm
    exact save_record_markonly_disk dm time_str v.current_frame_idx _
      ("class_" ++ label) short_code _ writeOk

/-- C4 witness: the amended statement at the concrete mark-only scenario. -/
theorem tagging_seeks_regardless_of_mode_witness :
    (unwrapT (handle_tagging vid500 freshDM "car" "z" "mark_only" 2 10 "T"
        true)).seeks
      = livePlan vid500.current_frame_idx 2 10 vid500.total_frames
          ++ [vid500.current_frame_idx] ∧
    (unwrapT (handle_tagging vid500 freshDM "car" "z" "mark_only" 2 10 "T"
        true)).images
      = (livePlan vid500.current_frame_idx 2 10 vid500.total_frames).map
          (fun t => (t, pad6 t)) ∧
    (unwrapT (handle_tagging vid500 freshDM "car" "z" "mark_only" 2 10 "T"
        true)).video.current_frame_idx = vid500.current_frame_idx ∧
    ("mark_only" = "mark_only" →
      (unwrapT (handle_tagging vid500 freshDM "car" "z" "mark_only" 2 10 "T"
          true)).dm.disk = freshDM.disk) :=
  tagging_seeks_regardless_of_mode vid500 freshDM "car" "z" "mark_only" 2 10
    "T" true (by decide) (by decide)

/-- C5 counterexample: at center 0 with lookback 0, interval 1, total 1000,
the live plan is `[0]` but the rebuild plan is empty — the two paths do not
produce index lists differing elementwise by one frame. -/
theorem plans_shift_cex :
    livePlan 0 0 1 1000 = [0] ∧ rebuildPlan 0 0 1 1000 = [] ∧
    rebuildPlan 0 0 1 1000 ≠ (livePlan 0 0 1 1000).map (fun x => x - 1) := by
  decide

/-- C5 amended: the live planner anchors at the marked frame and the rebuild
planner at `center - 1` — `rebuildPlan center = livePlan (center - 1)`
always; and whenever every target stays strictly inside the video
(`interval ≥ 0`, `1 ≤ center - lookback * interval`, `center < total`) the
rebuild list is the live list with every index lowered by exactly one. -/
theorem rebuild_anchor_off_by_one (c k I T : Int) (hI : 0 ≤ I)
    (hlo : 1 ≤ c - k * I) (hhi : c < T) :
    rebuildPlan c k I T = livePlan (c - 1) k I T ∧
    rebuildPlan c k I T = (livePlan c k I T).map (fun x => x - 1) := by
  constructor
  · rfl
  · rw [plan_filter_trivial c k I T hI (by omega) hhi, List.map_map]
    have h2 : rebuildPlan c k I T
        = (intRange (-k) 1).map (fun i => (c - 1) + i * I) := by
      show livePlan (c - 1) k I T = _
      exact plan_filter_trivial (c - 1) k I T hI (by omega) (by omega)
    rw [h2]
    apply List.map_congr_left
    intro a _
    show (c - 1) + a * I = (c + a * I) - 1
    omega

/-- C5 witness: at center 500, lookback 2, interval 10, total 1000 the
rebuild plan equals the live plan anchored one frame earlier. -/
theorem rebuild_anchor_off_by_one_witness :
    rebuildPlan 500 2 10 1000 = livePlan 499 2 10 1000 ∧
    rebuildPlan 500 2 10 1000 = (livePlan 500 2 10 1000).map (fun x => x - 1) :=
  rebuild_anchor_off_by_one 500 2 10 1000 (by decide) (by decide) (by decide)

/-- C6: for lookback ≥ 0, interval ≥ 1 and total > 0, every index either
extraction planner produces lies in `[0, total)` and both produced index
sequences are non-decreasing. -/
theorem plan_bounds_monotone (c k I T : Int) (_hk : 0 ≤ k) (hI : 1 ≤ I)
    (_hT : 0 < T) :
    (∀ x ∈ livePlan c k I T, 0 ≤ x ∧ x < T) ∧
    (livePlan c k I T).Pairwise (· ≤ ·) ∧
    (∀ x ∈ rebuildPlan c k I T, 0 ≤ x ∧ x < T) ∧
    (rebuildPlan c k I T).Pairwise (· ≤ ·) :=
  ⟨fun x hx => mem_livePlan_bounds c k I T x hx,
   livePlan_pairwise c k I T hI,
   fun x hx => mem_rebuildPlan_bounds c k I T x hx,
   rebuildPlan_pairwise c k I T hI⟩

/-- C6 witness: the bounds at the concrete plan for center 500 and the
monotonicity of that concrete plan. -/
theorem plan_bounds_monotone_witness :
    (0 ≤ (480 : Int) ∧ (480 : Int) < 1000) ∧
    (livePlan 500 2 10 1000).Pairwise (· ≤ ·) :=
  ⟨(plan_bounds_monotone 500 2 10 1000 (by decide) (by decide) (by decide)).1
      480 (by decide),
   (plan_bounds_monotone 500 2 10 1000 (by decide) (by decide)
      (by decide)).2.1⟩

/-- C7: rebuild is idempotent — running `rebuild_dataset` a second time with
identical parameters over the same marker set (continuing from the video
state the first run left) yields a new output tree whose every path holds
exactly what it held after the first run, because images are written only
when the destination file does not already exist. -/
theorem rebuild_idempotent (v : VC) (dm : DM) (km : List (Nat × String))
    (kN I : Int) (cc : Bool) (d : Disk) (q : String) :
    diskLookup (rebuild_dataset (rebuild_dataset v dm km kN I cc d).1 dm km kN
        I cc (rebuild_dataset v dm km kN I cc d).2).2 q
      = diskLookup (rebuild_dataset v dm km kN I cc d).2 q := by
  rcases he : dm.markers.isEmpty with _ | _
  · have hT : (rebuild_dataset v dm km kN I cc d).1.total_frames
        = v.total_frames := rebuild_dataset_total v dm km kN I cc d
    have h2 := rebuild_dataset_lookup (rebuild_dataset v dm km kN I cc d).1 dm
      km kN I cc (rebuild_dataset v dm km kN I cc d).2 he q
    rw [hT] at h2
    have h1 := rebuild_dataset_lookup v dm km kN I cc d he
    rw [h2]
    rcases cc with _ | _
    · simp only [Bool.false_eq_true, if_false] at h1 ⊢
      rw [h1 q, oelse_self_absorb]
    · simp only [if_true] at h1 ⊢
      rw [diskLookup_diskWrite]
      by_cases hq : dm.video_name ++ "_labels.csv" = q
      · have hb : (dm.video_name ++ "_labels.csv" == q) = true := by
          simp [hq]
        rw [hb, if_pos rfl, h1 q, diskLookup_diskWrite, hb, if_pos rfl]
      · have hb : (dm.video_name ++ "_labels.csv" == q) = false := by
          simp [hq]
        rw [hb]
        simp only [Bool.false_eq_true, if_false]
        rw [h1 q, oelse_self_absorb]
  · have hr : rebuild_dataset v dm km kN I cc d = (v, d) := by
      unfold rebuild_dataset
      rw [he]
      rfl
    rw [hr]
    rw [hr]

/-- C8: `seek` clamps every requested index to `[0, total_frames - 1]` and
immediately reads once, so afterwards the cached frame and the current index
both reflect the clamped target (for any video with at least one frame). -/
theorem seek_clamps_and_reads (v : VC) (idx : Int) (h : 0 < v.total_frames) :
    (v.seek idx).current_frame_idx = max 0 (min idx (v.total_frames - 1)) ∧
    (v.seek idx).frame_cache = some (max 0 (min idx (v.total_frames - 1))) ∧
    (v.seek idx).pos = max 0 (min idx (v.total_frames - 1)) + 1 := by
  have h0 : 0 ≤ max 0 (min idx (v.total_frames - 1)) := by omega
  have h1 : max 0 (min idx (v.total_frames - 1)) < v.total_frames := by omega
  have hs : v.seek idx = v.seek (max 0 (min idx (v.total_frames - 1))) := by
    unfold VC.seek
    dsimp only
    have : max 0 (min (max 0 (min idx (v.total_frames - 1)))
        (v.total_frames - 1)) = max 0 (min idx (v.total_frames - 1)) := by
      omega
    rw [this]
  rw [hs, VC.seek_spec v _ h0 h1]
  exact ⟨rfl, rfl, rfl⟩

/-- C8 witness: seeking far past the end of the 1000-frame video clamps to
frame 999, which is read and cached. -/
theorem seek_clamps_and_reads_witness :
    (vid500.seek 2000).current_frame_idx
        = max 0 (min 2000 (vid500.total_frames - 1)) ∧
    (vid500.seek 2000).frame_cache
        = some (max 0 (min 2000 (vid500.total_frames - 1))) ∧
    (vid500.seek 2000).pos = max 0 (min 2000 (vid500.total_frames - 1)) + 1 :=
  seek_clamps_and_reads vid500 2000 (by decide)

/-- C9: in the rebuild loop, `seek t` consumes frame `t` into the cache and
the following explicit `read` returns frame `t + 1`, so (when `t + 1` is
still inside the video and the destination is absent) the file whose name
encodes index `t` receives the decoded frame at index `t + 1`. -/
theorem rebuild_writes_next_frame (v : VC) (d : Disk) (vn s ll : String)
    (t : Int) (h0 : 0 ≤ t) (h1 : t + 1 < v.total_frames)
    (habs : diskLookup d (imgPath ll vn s t) = none) :
    diskLookup (rebuildFrameStep vn s ll (v, d) t).2 (imgPath ll vn s t)
        = some (FileData.img (t + 1)) ∧
    (v.seek t).frame_cache = some t := by
  constructor
  · rw [frameStep_lookup vn s ll v d t h0 (by omega) (imgPath ll vn s t), habs]
    simp [oelse, h1]
  · rw [VC.seek_spec v t h0 (by omega)]

/-- C9 witness: rebuilding target frame 480 writes the decoded frame 481
under the name encoding 480, while the seek cached frame 480. -/
theorem rebuild_writes_next_frame_witness :
    diskLookup (rebuildFrameStep "vid" "z" "class_car" (vid500, []) 480).2
        (imgPath "class_car" "vid" "z" 480) = some (FileData.img 481) ∧
    (vid500.seek 480).frame_cache = some 480 :=
  rebuild_writes_next_frame vid500 [] "vid" "z" "class_car" 480 (by decide)
    (by decide) (by decide)

/-- C10: after two successful `save_record` calls for the same frame id and
one `undo_last`, the in-memory index no longer maps that frame at all, while
replaying the remaining ledger rows still maps it (to the suffix of the
first entry's class label) — the index-equals-replay invariant is broken by
undoing a re-labeled frame. -/
theorem undo_breaks_replay_invariant (dm : DM) (t1 t2 : String) (fid : Int)
    (ms1 ms2 : Frac) (l1 s1 m1 l2 s2 m2 : String)
    (i1 i2 : List (Int × String)) :
    (unwrapE ((unwrapE (dm.save_record t1 fid ms1 l1 s1 m1 i1
        true)).save_record t2 fid ms2 l2 s2 m2 i2 true)).undo_last.1
      = true ∧
    dictGet (unwrapE ((unwrapE (dm.save_record t1 fid ms1 l1 s1 m1 i1
        true)).save_record t2 fid ms2 l2 s2 m2 i2
        true)).undo_last.2.markers fid = none ∧
    dictGet (loadMarkers (unwrapE ((unwrapE (dm.save_record t1 fid ms1 l1 s1
        m1 i1 true)).save_record t2 fid ms2 l2 s2 m2 i2
        true)).undo_last.2.rows) fid = some (shortFromLabel l1) := by
  rw [save_record_ok_eq]
  rw [show ∀ x : DM, unwrapE (.ok x) = x from fun x => rfl]
  rw [save_record_ok_eq]
  rw [show ∀ x : DM, unwrapE (.ok x) = x from fun x => rfl]
  unfold DM.undo_last
  dsimp only
  rw [List.getLast?_concat]
  dsimp only
  have hrows : ((dm.rows ++ [(⟨t1, fid, format2 ms1, l1, m1⟩ : Row)])
      ++ [(⟨t2, fid, format2 ms2, l2, m2⟩ : Row)]).length + 1 > 1 := by
    simp
  rw [if_pos hrows, List.dropLast_concat]
  have hget : (dictGet (dictInsert (dictInsert dm.markers fid s1) fid s2)
      fid).isSome = true := by
    rw [dictGet_insert_self]
    rfl
  rw [if_pos hget]
  refine ⟨rfl, ?_, ?_⟩
  · exact dictGet_delete_self _ fid
  · rw [loadMarkers_concat]
    exact dictGet_insert_self _ fid _

end FrameMiner
